import Mathlib

/-!
Verification of the prime-utils repository: a shallow embedding of the
library crate (lib.rs), of the duplicated logic in the root binary
(main.rs), and of the result handling of the two command-line entry
points, together with theorems settling the specification claims.

Unsigned 64-bit values are embedded as Nat; wherever machine width
matters (the u128 intermediate of mod_mul, the cast back to u64) the
reduction modulo 2 ^ 128 or 2 ^ 64 is written explicitly.  Rust's
saturating_sub and Nat subtraction agree (both clamp at zero), and
is_multiple_of p is n % p == 0 for every p, including p = 0 where both
hold exactly for n = 0.
-/

/-- Embeds mod_mul of lib.rs: the operands are widened to u128 (exact),
multiplied in u128 (the product of two u64 values never reaches 2 ^ 128,
but the wrap is written out), reduced mod m, and cast back to u64
(truncation mod 2 ^ 64). -/
def mod_mul (a b m : Nat) : Nat :=
  ((a * b) % 2 ^ 128 % m) % 2 ^ 64

/-- Embeds the while loop of mod_pow of lib.rs: result and base are the
loop-mutable locals, exp halves each iteration. -/
def modPowLoop (base exp modu result : Nat) : Nat :=
  if h : exp = 0 then result
  else
    let result2 := if exp % 2 = 1 then mod_mul result base modu else result
    modPowLoop (mod_mul base base modu) (exp / 2) modu result2
termination_by exp
decreasing_by exact Nat.div_lt_self (Nat.pos_of_ne_zero h) one_lt_two

/-- Embeds mod_pow of lib.rs: result starts at 1 % modu and base is
reduced modulo modu before the loop. -/
def mod_pow (base exp modu : Nat) : Nat :=
  modPowLoop (base % modu) exp modu (1 % modu)

/-- The SMALL_PRIMES constant of is_prime in lib.rs. -/
def SMALL_PRIMES : List Nat := [2, 3, 5, 7, 11, 13, 17]

/-- The BASES constant of is_prime in lib.rs: deterministic Miller-Rabin
witness bases for the 64-bit range. -/
def BASES : List Nat := [2, 325, 9375, 28178, 450775, 9780504, 1795265022]

/-- Embeds the small-prime filter loop of is_prime in lib.rs: some b
means the loop returned b, none means the loop fell through. -/
def smallPrimeCheck (n : Nat) : List Nat → Option Bool
  | [] => none
  | p :: ps =>
    if n = p then some true
    else if n % p = 0 then some (decide (n = p))
    else smallPrimeCheck n ps

/-- Embeds the while loop of is_prime in lib.rs writing n - 1 = d * 2 ^ s
with d odd, returning (d, s).  The d ≠ 0 conjunct is required for
termination in Lean; is_prime only calls this with d = n - 1 ≥ 1 (its
n < 2 guard ran first), and the source loop likewise only terminates
for d ≥ 1. -/
def split2 (d : Nat) : Nat × Nat :=
  if h : d % 2 = 0 ∧ d ≠ 0 then
    let p := split2 (d / 2)
    (p.1, p.2 + 1)
  else (d, 0)
termination_by d
decreasing_by exact Nat.div_lt_self (Nat.pos_of_ne_zero h.2) one_lt_two

/-- Embeds the inner squaring loop of is_prime in lib.rs (for _ in 1..s,
so s - 1 iterations): returns true when x reaches n - 1 (continue to the
next base) and false when the loop completes (n is composite). -/
def mrInner (n : Nat) : Nat → Nat → Bool
  | 0, _ => false
  | k + 1, x =>
    let x2 := mod_mul x x n
    if x2 = n - 1 then true else mrInner n k x2

/-- Embeds one iteration of the outer base loop of is_prime in lib.rs:
true when the base a passes (continue), false when it proves n
composite (return false). -/
def mrWitness (n d s a : Nat) : Bool :=
  if a % n = 0 then true
  else
    let x := mod_pow (a % n) d n
    if x = 1 ∨ x = n - 1 then true
    else mrInner n (s - 1) x

/-- Embeds is_prime of lib.rs: the n < 2 guard, the small-prime filter,
the factorisation n - 1 = d * 2 ^ s, and the Miller-Rabin rounds over
BASES (List.all short-circuits exactly like the early return). -/
def is_prime (n : Nat) : Bool :=
  if n < 2 then false
  else
    match smallPrimeCheck n SMALL_PRIMES with
    | some b => b
    | none =>
      let ds := split2 (n - 1)
      BASES.all fun a => mrWitness n ds.1 ds.2 a

/-- Embeds the descent loop of largest_prime_below in lib.rs together
with the post-loop re-check: test the candidate; at candidate ≤ 3 break
and re-check candidate ≥ 2 && is_prime candidate; otherwise subtract 2
(saturating subtraction never fires below 4, and Nat subtraction is
saturating regardless) and continue. -/
def lpbLoop : Nat → Option Nat
  | c + 4 =>
    if is_prime (c + 4) then some (c + 4)
    else lpbLoop (c + 2)
  | c =>
    if is_prime c then some c
    else if 2 ≤ c ∧ is_prime c then some c else none

/-- Embeds largest_prime_below of lib.rs: the n ≤ 2 guard, candidate :=
n - 1, the adjustment to an odd starting candidate, then the loop. -/
def largest_prime_below (n : Nat) : Option Nat :=
  if n ≤ 2 then none
  else
    let candidate := n - 1
    let candidate := if 2 < candidate ∧ candidate % 2 = 0 then candidate - 1 else candidate
    lpbLoop candidate

namespace MainSrc

/-- Embeds mod_mul of main.rs (the private duplicate of the library
function, textually the same computation). -/
def mod_mul (a b m : Nat) : Nat :=
  ((a * b) % 2 ^ 128 % m) % 2 ^ 64

/-- Embeds the while loop of mod_pow of main.rs. -/
def modPowLoop (base exp modu result : Nat) : Nat :=
  if h : exp = 0 then result
  else
    let result2 := if exp % 2 = 1 then mod_mul result base modu else result
    modPowLoop (mod_mul base base modu) (exp / 2) modu result2
termination_by exp
decreasing_by exact Nat.div_lt_self (Nat.pos_of_ne_zero h) one_lt_two

/-- Embeds mod_pow of main.rs. -/
def mod_pow (base exp modu : Nat) : Nat :=
  modPowLoop (base % modu) exp modu (1 % modu)

/-- The SMALL_PRIMES constant of is_prime in main.rs. -/
def SMALL_PRIMES : List Nat := [2, 3, 5, 7, 11, 13, 17]

/-- The BASES constant of is_prime in main.rs. -/
def BASES : List Nat := [2, 325, 9375, 28178, 450775, 9780504, 1795265022]

/-- Embeds the small-prime filter loop of is_prime in main.rs (written
with n % p == 0 where lib.rs uses is_multiple_of; the two agree for
every p, including p = 0). -/
def smallPrimeCheck (n : Nat) : List Nat → Option Bool
  | [] => none
  | p :: ps =>
    if n = p then some true
    else if n % p = 0 then some (decide (n = p))
    else smallPrimeCheck n ps

/-- Embeds the n - 1 = d * 2 ^ s extraction loop of is_prime in main.rs;
the d ≠ 0 conjunct is for termination exactly as in the library
embedding. -/
def split2 (d : Nat) : Nat × Nat :=
  if h : d % 2 = 0 ∧ d ≠ 0 then
    let p := split2 (d / 2)
    (p.1, p.2 + 1)
  else (d, 0)
termination_by d
decreasing_by exact Nat.div_lt_self (Nat.pos_of_ne_zero h.2) one_lt_two

/-- Embeds the inner squaring loop of is_prime in main.rs. -/
def mrInner (n : Nat) : Nat → Nat → Bool
  | 0, _ => false
  | k + 1, x =>
    let x2 := mod_mul x x n
    if x2 = n - 1 then true else mrInner n k x2

/-- Embeds one outer-loop iteration of is_prime in main.rs. -/
def mrWitness (n d s a : Nat) : Bool :=
  if a % n = 0 then true
  else
    let x := mod_pow (a % n) d n
    if x = 1 ∨ x = n - 1 then true
    else mrInner n (s - 1) x

/-- Embeds is_prime of main.rs. -/
def is_prime (n : Nat) : Bool :=
  if n < 2 then false
  else
    match smallPrimeCheck n SMALL_PRIMES with
    | some b => b
    | none =>
      let ds := split2 (n - 1)
      BASES.all fun a => mrWitness n ds.1 ds.2 a

/-- Embeds the descent loop of largest_prime_below in main.rs with its
post-loop re-check. -/
def lpbLoop : Nat → Option Nat
  | c + 4 =>
    if is_prime (c + 4) then some (c + 4)
    else lpbLoop (c + 2)
  | c =>
    if is_prime c then some c
    else if 2 ≤ c ∧ is_prime c then some c else none

/-- Embeds largest_prime_below of main.rs. -/
def largest_prime_below (n : Nat) : Option Nat :=
  if n ≤ 2 then none
  else
    let candidate := n - 1
    let candidate := if 2 < candidate ∧ candidate % 2 = 0 then candidate - 1 else candidate
    lpbLoop candidate

end MainSrc

/-- The stream a command-line entry point writes its final message to. -/
inductive OutStream : Type
  | stdout : OutStream
  | stderr : OutStream
deriving DecidableEq, Repr

/-- Embeds the match in main of src/bin/largest_prime_below.rs on the
library largest_prime_below: Some p prints the prime on stdout and the
process exits 0; None prints the diagnostic on stderr and the process
exits 1.  The model records the stream of the final message and the
exit status. -/
def binMainReport (n : Nat) : OutStream × Nat :=
  match largest_prime_below n with
  | some _ => (OutStream.stdout, 0)
  | none => (OutStream.stderr, 1)

/-- Embeds the match in main of src/main.rs on its private
largest_prime_below: both arms print on stdout with println and main
falls through, so the process exits 0 in both cases. -/
def rootMainReport (n : Nat) : OutStream × Nat :=
  match MainSrc.largest_prime_below n with
  | some _ => (OutStream.stdout, 0)
  | none => (OutStream.stdout, 0)

/-- Fuel-indexed version of the descent loop, used to state that the
loop terminates within an explicit bound: none means the fuel ran out
before the loop finished. -/
def lpbLoopFuel : Nat → Nat → Option (Option Nat)
  | 0, _ => none
  | fuel + 1, c =>
    if is_prime c then some (some c)
    else if c ≤ 3 then some (if 2 ≤ c ∧ is_prime c then some c else none)
    else lpbLoopFuel fuel (c - 2)

/-- Fuel-indexed version of largest_prime_below, giving the descent loop
n units of fuel. -/
def largest_prime_belowFuel (n : Nat) : Option (Option Nat) :=
  if n ≤ 2 then some none
  else
    let candidate := n - 1
    let candidate := if 2 < candidate ∧ candidate % 2 = 0 then candidate - 1 else candidate
    lpbLoopFuel n candidate

/-- The value of the mutable local candidate of largest_prime_below at
the top of its first loop iteration, for n ≥ 3: n - 1, decremented once
more when that is even and above 2. -/
def lpbStart (n : Nat) : Nat :=
  if 2 < n - 1 ∧ (n - 1) % 2 = 0 then n - 1 - 1 else n - 1

/-- Subtraction that fails instead of underflowing, modelling a Rust
unsigned subtraction that would panic on overflow. -/
def checkedSub (a b : Nat) : Option Nat :=
  if b ≤ a then some (a - b) else none

/-- largest_prime_below of lib.rs with its two plain subtractions
(candidate = n - 1, and candidate -= 1 in the even adjustment) replaced
by checked subtraction: an outer none would mean a panic.  The loop
itself only uses saturating_sub, which is total by definition and is
modelled by Nat subtraction. -/
def largest_prime_belowChecked (n : Nat) : Option (Option Nat) :=
  if n ≤ 2 then some none
  else
    match checkedSub n 1 with
    | none => none
    | some candidate =>
      match (if 2 < candidate ∧ candidate % 2 = 0 then checkedSub candidate 1 else some candidate) with
      | none => none
      | some candidate2 => some (lpbLoop candidate2)

/-- mod_mul computes the exact modular product when the operands fit in
64 bits and the modulus is positive and at most 2 ^ 64: the u128
intermediate and the cast back to u64 never truncate. -/
lemma mod_mul_eq (a b m : Nat) (ha : a < 2 ^ 64) (hb : b < 2 ^ 64)
    (hm0 : 0 < m) (hm : m ≤ 2 ^ 64) : mod_mul a b m = a * b % m := by
  have hab : a * b < 2 ^ 128 := by
    calc a * b ≤ (2 ^ 64 - 1) * (2 ^ 64 - 1) := Nat.mul_le_mul (by omega) (by omega)
      _ < 2 ^ 128 := by norm_num
  have hmod : a * b % m < m := Nat.mod_lt _ hm0
  rw [mod_mul, Nat.mod_eq_of_lt hab, Nat.mod_eq_of_lt (lt_of_lt_of_le hmod hm)]

/-- mod_mul stays below a positive modulus of at most 2 ^ 64. -/
lemma mod_mul_lt (a b m : Nat) (hm0 : 0 < m) (hm : m ≤ 2 ^ 64) :
    mod_mul a b m < m := by
  have h1 : a * b % 2 ^ 128 % m < m := Nat.mod_lt _ hm0
  rw [mod_mul, Nat.mod_eq_of_lt (lt_of_lt_of_le h1 hm)]
  exact h1

/-- Loop invariant of modPowLoop: with in-range state it computes
result * base ^ exp modulo m. -/
lemma modPowLoop_exact (exp : Nat) : ∀ base result m, 0 < m → m ≤ 2 ^ 64 →
    base < m → result < m →
    modPowLoop base exp m result = result * base ^ exp % m := by
  induction exp using Nat.strong_induction_on with
  | _ exp ih =>
    intro base result m hm0 hm hbase hres
    rw [modPowLoop.eq_def]
    by_cases h : exp = 0
    · simp [h, Nat.mod_eq_of_lt hres]
    · simp only [h, dite_false]
      have hb64 : base < 2 ^ 64 := lt_of_lt_of_le hbase hm
      have hr64 : result < 2 ^ 64 := lt_of_lt_of_le hres hm
      have hbb : mod_mul base base m ≡ base * base [MOD m] := by
        rw [mod_mul_eq _ _ _ hb64 hb64 hm0 hm]
        exact Nat.mod_modEq _ _
      have hbb_lt : mod_mul base base m < m := mod_mul_lt _ _ _ hm0 hm
      have hdiv : exp / 2 < exp := Nat.div_lt_self (Nat.pos_of_ne_zero h) one_lt_two
      by_cases hodd : exp % 2 = 1
      · simp only [hodd, if_pos]
        have hrb : mod_mul result base m ≡ result * base [MOD m] := by
          rw [mod_mul_eq _ _ _ hr64 hb64 hm0 hm]
          exact Nat.mod_modEq _ _
        have hrb_lt : mod_mul result base m < m := mod_mul_lt _ _ _ hm0 hm
        rw [ih (exp / 2) hdiv _ _ _ hm0 hm hbb_lt hrb_lt]
        have hcong : mod_mul result base m * (mod_mul base base m) ^ (exp / 2) ≡
            result * base * (base * base) ^ (exp / 2) [MOD m] :=
          hrb.mul (hbb.pow _)
        have hexp : result * base * (base * base) ^ (exp / 2) = result * base ^ exp := by
          have h2 : exp = 2 * (exp / 2) + 1 := by omega
          calc result * base * (base * base) ^ (exp / 2)
              = result * (base ^ (2 * (exp / 2) + 1)) := by ring
            _ = result * base ^ exp := by rw [← h2]
        calc mod_mul result base m * (mod_mul base base m) ^ (exp / 2) % m
            = result * base * (base * base) ^ (exp / 2) % m := hcong
          _ = result * base ^ exp % m := by rw [hexp]
      · simp only [hodd, if_neg, if_false]
        rw [ih (exp / 2) hdiv _ _ _ hm0 hm hbb_lt hres]
        have hcong : result * (mod_mul base base m) ^ (exp / 2) ≡
            result * (base * base) ^ (exp / 2) [MOD m] :=
          (Nat.ModEq.refl result).mul (hbb.pow _)
        have hexp : result * (base * base) ^ (exp / 2) = result * base ^ exp := by
          have h2 : exp = 2 * (exp / 2) := by omega
          calc result * (base * base) ^ (exp / 2)
              = result * base ^ (2 * (exp / 2)) := by ring
            _ = result * base ^ exp := by rw [← h2]
        calc result * (mod_mul base base m) ^ (exp / 2) % m
            = result * (base * base) ^ (exp / 2) % m := hcong
          _ = result * base ^ exp % m := by rw [hexp]

/-- C3: for all a, b in [0, 2^64) and m in [1, 2^64), mod_mul a b m
returns exactly (a * b) mod m; the 128-bit intermediate product makes
the result exact for every such a, b, m. -/
theorem mod_mul_exact (a b m : Nat) (ha : a < 2 ^ 64) (hb : b < 2 ^ 64)
    (hm1 : 1 ≤ m) (hm : m < 2 ^ 64) : mod_mul a b m = a * b % m :=
  mod_mul_eq a b m ha hb hm1 (le_of_lt hm)

/-- Witness for C3 at a = 3, b = 4, m = 5. -/
theorem mod_mul_exact_witness :
    (3 < 2 ^ 64 ∧ 4 < 2 ^ 64 ∧ 1 ≤ 5 ∧ 5 < 2 ^ 64) ∧ mod_mul 3 4 5 = 3 * 4 % 5 :=
  ⟨by decide, mod_mul_exact 3 4 5 (by decide) (by decide) (by decide) (by decide)⟩

/-- C4: for every base and exp in [0, 2^64) and every m in [1, 2^64),
mod_pow base exp m returns base ^ exp mod m; in particular exp = 0
yields 1 % m (which is 0 when m = 1), and the base is reduced modulo m
before the square-and-multiply loop starts. -/
theorem mod_pow_exact (base exp m : Nat) (hb : base < 2 ^ 64) (he : exp < 2 ^ 64)
    (hm1 : 1 ≤ m) (hm : m < 2 ^ 64) : mod_pow base exp m = base ^ exp % m := by
  rw [mod_pow, modPowLoop_exact exp (base % m) (1 % m) m hm1 (le_of_lt hm)
    (Nat.mod_lt _ hm1) (Nat.mod_lt _ hm1)]
  have hcong : 1 % m * (base % m) ^ exp ≡ 1 * base ^ exp [MOD m] :=
    (Nat.mod_modEq 1 m).mul ((Nat.mod_modEq base m).pow exp)
  calc 1 % m * (base % m) ^ exp % m = 1 * base ^ exp % m := hcong
    _ = base ^ exp % m := by rw [one_mul]

/-- Witness for C4 at base = 3, exp = 5, m = 7. -/
theorem mod_pow_exact_witness :
    (3 < 2 ^ 64 ∧ 5 < 2 ^ 64 ∧ 1 ≤ 7 ∧ 7 < 2 ^ 64) ∧ mod_pow 3 5 7 = 3 ^ 5 % 7 :=
  ⟨by decide, mod_pow_exact 3 5 7 (by decide) (by decide) (by decide) (by decide)⟩

/-- Unfolding of the descent loop above the boundary: test the
candidate, otherwise step down by 2. -/
lemma lpbLoop_ge4 (c : Nat) (h : 4 ≤ c) :
    lpbLoop c = if is_prime c then some c else lpbLoop (c - 2) := by
  obtain ⟨k, rfl⟩ : ∃ k, c = k + 4 := ⟨c - 4, by omega⟩
  have h2 : k + 4 - 2 = k + 2 := by omega
  rw [lpbLoop, h2]

/-- Unfolding of the descent loop at the boundary: test the candidate,
otherwise break and run the post-loop re-check. -/
lemma lpbLoop_le3 (c : Nat) (h : c ≤ 3) :
    lpbLoop c = if is_prime c then some c
      else if 2 ≤ c ∧ is_prime c then some c else none := by
  interval_cases c <;> decide

/-- Any value accepted by is_prime is at least 2. -/
lemma isPrime_two_le {r : Nat} (h : is_prime r = true) : 2 ≤ r := by
  by_contra hlt
  have h2 : r < 2 := by omega
  simp [is_prime, h2] at h

/-- The descent loop only returns values bounded by its starting
candidate. -/
lemma lpbLoop_le (c : Nat) : ∀ r, lpbLoop c = some r → r ≤ c := by
  induction c using Nat.strong_induction_on with
  | _ c ih =>
    intro r h
    by_cases h4 : 4 ≤ c
    · rw [lpbLoop_ge4 c h4] at h
      by_cases hp : is_prime c
      · simp [hp] at h
        omega
      · simp [hp] at h
        exact le_trans (ih (c - 2) (by omega) r h) (by omega)
    · rw [lpbLoop_le3 c (by omega)] at h
      by_cases hp : is_prime c
      · simp [hp] at h
        omega
      · simp [hp] at h

/-- The descent loop only returns values accepted by is_prime. -/
lemma lpbLoop_isPrime (c : Nat) : ∀ r, lpbLoop c = some r → is_prime r = true := by
  induction c using Nat.strong_induction_on with
  | _ c ih =>
    intro r h
    by_cases h4 : 4 ≤ c
    · rw [lpbLoop_ge4 c h4] at h
      by_cases hp : is_prime c
      · simp [hp] at h
        subst h
        exact hp
      · simp [hp] at h
        exact ih (c - 2) (by omega) r h
    · rw [lpbLoop_le3 c (by omega)] at h
      by_cases hp : is_prime c
      · simp [hp] at h
        subst h
        exact hp
      · simp [hp] at h

/-- Moving the start of the descent up by 2 can only move the result
up. -/
lemma lpbLoop_mono_step (c r : Nat) (h2 : 2 ≤ c) (h : lpbLoop c = some r) :
    ∃ s, lpbLoop (c + 2) = some s ∧ r ≤ s := by
  rw [lpbLoop_ge4 (c + 2) (by omega)]
  by_cases hp : is_prime (c + 2)
  · exact ⟨c + 2, by simp [hp], le_trans (lpbLoop_le c r h) (by omega)⟩
  · have hc : c + 2 - 2 = c := by omega
    exact ⟨r, by simp [hp, hc, h], le_rfl⟩

/-- Moving the start of the descent up by any even amount can only move
the result up. -/
lemma lpbLoop_mono_many (k : Nat) : ∀ c r, 2 ≤ c → lpbLoop c = some r →
    ∃ s, lpbLoop (c + 2 * k) = some s ∧ r ≤ s := by
  induction k with
  | zero =>
    intro c r h2 h
    exact ⟨r, by simpa using h, le_rfl⟩
  | succ k ihk =>
    intro c r h2 h
    obtain ⟨s, hs, hrs⟩ := lpbLoop_mono_step c r h2 h
    obtain ⟨t, ht, hst⟩ := ihk (c + 2) s (by omega) hs
    have hk : c + 2 * (k + 1) = c + 2 + 2 * k := by omega
    exact ⟨t, by rw [hk]; exact ht, le_trans hrs hst⟩

/-- Started on an odd candidate at least 3, the descent always finds
something: in the worst case it reaches 3, which is_prime accepts. -/
lemma lpbLoop_total_odd (c : Nat) : c % 2 = 1 → 3 ≤ c → ∃ r, lpbLoop c = some r := by
  induction c using Nat.strong_induction_on with
  | _ c ih =>
    intro hodd h3
    by_cases h4 : 4 ≤ c
    · rw [lpbLoop_ge4 c h4]
      by_cases hp : is_prime c
      · exact ⟨c, by simp [hp]⟩
      · obtain ⟨r, hr⟩ := ih (c - 2) (by omega) (by omega) (by omega)
        exact ⟨r, by simp [hp, hr]⟩
    · have hc : c = 3 := by omega
      subst hc
      exact ⟨3, by decide⟩

/-- For n ≥ 3 the search is the descent loop started at lpbStart n. -/
lemma lpb_eq_start (n : Nat) (h : 3 ≤ n) :
    largest_prime_below n = lpbLoop (lpbStart n) := by
  simp only [largest_prime_below, lpbStart]
  rw [if_neg (by omega : ¬ n ≤ 2)]

/-- For n ≥ 4 the starting candidate is odd. -/
lemma lpbStart_odd (n : Nat) (h : 4 ≤ n) : lpbStart n % 2 = 1 := by
  by_cases hc : 2 < n - 1 ∧ (n - 1) % 2 = 0
  · simp only [lpbStart, if_pos hc]
    omega
  · simp only [lpbStart, if_neg hc]
    have h2 : 2 < n - 1 := by omega
    have h3 : ¬ (n - 1) % 2 = 0 := fun he => hc ⟨h2, he⟩
    omega

/-- For n ≥ 4 the starting candidate is at least 3. -/
lemma lpbStart_ge3 (n : Nat) (h : 4 ≤ n) : 3 ≤ lpbStart n := by
  by_cases hc : 2 < n - 1 ∧ (n - 1) % 2 = 0
  · simp only [lpbStart, if_pos hc]
    omega
  · simp only [lpbStart, if_neg hc]
    omega

/-- The starting candidate is below n. -/
lemma lpbStart_le (n : Nat) : lpbStart n ≤ n - 1 := by
  by_cases hc : 2 < n - 1 ∧ (n - 1) % 2 = 0
  · simp only [lpbStart, if_pos hc]
    omega
  · simp only [lpbStart, if_neg hc]
    exact le_rfl

/-- The starting candidate sits within 2 of n - 1. -/
lemma lpbStart_ge_sub2 (n : Nat) : n - 1 - 1 ≤ lpbStart n := by
  by_cases hc : 2 < n - 1 ∧ (n - 1) % 2 = 0
  · simp only [lpbStart, if_pos hc]
    exact le_rfl
  · simp only [lpbStart, if_neg hc]
    omega

/-- The starting candidate is monotone in n on n ≥ 4. -/
lemma lpbStart_mono (a b : Nat) (h4 : 4 ≤ a) (hab : a ≤ b) :
    lpbStart a ≤ lpbStart b := by
  have hb4 : 4 ≤ b := by omega
  have ha_odd := lpbStart_odd a h4
  have hb_odd := lpbStart_odd b hb4
  have ha_le := lpbStart_le a
  have hb_ge := lpbStart_ge_sub2 b
  have hb_le := lpbStart_le b
  omega

/-- C5: largest_prime_below n returns none if and only if n ≤ 2; for
every n > 2 it returns some value. -/
theorem largest_prime_below_none_iff (n : Nat) :
    largest_prime_below n = none ↔ n ≤ 2 := by
  constructor
  · intro h
    by_contra h2
    by_cases h4 : 4 ≤ n
    · rw [lpb_eq_start n (by omega)] at h
      obtain ⟨r, hr⟩ := lpbLoop_total_odd (lpbStart n) (lpbStart_odd n h4) (lpbStart_ge3 n h4)
      rw [hr] at h
      exact Option.noConfusion h
    · have h3 : n = 3 := by omega
      subst h3
      exact absurd h (by decide)
  · intro h
    simp [largest_prime_below, h]

/-- C6: for all a ≤ b, whenever largest_prime_below is defined at both,
the value at a is at most the value at b. -/
theorem largest_prime_below_monotone (a b pa pb : Nat) (hab : a ≤ b)
    (ha : largest_prime_below a = some pa)
    (hb : largest_prime_below b = some pb) : pa ≤ pb := by
  have ha3 : 3 ≤ a := by
    by_contra hlt
    have h2 : a ≤ 2 := by omega
    simp [largest_prime_below, h2] at ha
  have hb3 : 3 ≤ b := le_trans ha3 hab
  by_cases ha4 : 4 ≤ a
  · have hb4 : 4 ≤ b := by omega
    rw [lpb_eq_start a ha3] at ha
    rw [lpb_eq_start b hb3] at hb
    have hmono := lpbStart_mono a b ha4 hab
    have hsa := lpbStart_odd a ha4
    have hsb := lpbStart_odd b hb4
    obtain ⟨k, hk⟩ : ∃ k, lpbStart b = lpbStart a + 2 * k :=
      ⟨(lpbStart b - lpbStart a) / 2, by omega⟩
    have hge2 : 2 ≤ lpbStart a := by
      have := lpbStart_ge3 a ha4
      omega
    obtain ⟨s, hs, hrs⟩ := lpbLoop_mono_many k (lpbStart a) pa hge2 ha
    rw [hk, hs] at hb
    have hsb2 : s = pb := by
      injection hb
    omega
  · have ha3e : a = 3 := by omega
    subst ha3e
    have h3 : largest_prime_below 3 = some 2 := by decide
    rw [h3] at ha
    have hpa : pa = 2 := by
      injection ha with ha2
      omega
    rw [lpb_eq_start b hb3] at hb
    have hpb := isPrime_two_le (lpbLoop_isPrime (lpbStart b) pb hb)
    omega

/-- Witness for C6 at a = 10, b = 12, whose results are 7 and 11. -/
theorem largest_prime_below_monotone_witness :
    (10 ≤ 12 ∧ largest_prime_below 10 = some 7 ∧ largest_prime_below 12 = some 11) ∧ 7 ≤ 11 :=
  ⟨⟨by decide, by decide, by decide⟩,
    largest_prime_below_monotone 10 12 7 11 (by decide) (by decide) (by decide)⟩

/-- The fuel-indexed descent loop finishes once the fuel exceeds the
starting candidate: the candidate strictly decreases every iteration. -/
lemma lpbLoopFuel_spec (fuel : Nat) : ∀ c, c < fuel →
    lpbLoopFuel fuel c = some (lpbLoop c) := by
  induction fuel with
  | zero =>
    intro c h
    omega
  | succ fuel ihf =>
    intro c hc
    by_cases h4 : 4 ≤ c
    · rw [lpbLoopFuel, lpbLoop_ge4 c h4]
      by_cases hp : is_prime c
      · simp [hp]
      · have h3 : ¬ c ≤ 3 := by omega
        simp only [hp, Bool.false_eq_true, if_false, h3]
        exact ihf (c - 2) (by omega)
    · rw [lpbLoopFuel, lpbLoop_le3 c (by omega)]
      have h3 : c ≤ 3 := by omega
      by_cases hp : is_prime c
      · simp [hp]
      · simp [hp, h3]

/-- For n ≥ 3 the fuel-indexed search is the fuel-indexed loop started
at lpbStart n with n units of fuel. -/
lemma lpbFuel_eq_start (n : Nat) (h : 3 ≤ n) :
    largest_prime_belowFuel n = lpbLoopFuel n (lpbStart n) := by
  simp only [largest_prime_belowFuel, lpbStart]
  rw [if_neg (by omega : ¬ n ≤ 2)]

/-- C7: largest_prime_below terminates on every input; the descent is
bounded, since n units of fuel (one per possible candidate value, which
strictly decreases each iteration) always suffice to reach the result. -/
theorem largest_prime_below_terminates (n : Nat) :
    largest_prime_belowFuel n = some (largest_prime_below n) := by
  by_cases h : n ≤ 2
  · simp [largest_prime_belowFuel, largest_prime_below, h]
  · have h3 : 3 ≤ n := by omega
    rw [lpbFuel_eq_start n h3, lpb_eq_start n h3]
    exact lpbLoopFuel_spec n (lpbStart n) (by have := lpbStart_le n; omega)

/-- C10: the search is panic-free on the whole domain: the checked
variant, which fails if either plain subtraction (n - 1, or the
decrement to an odd candidate) would underflow, always succeeds and
agrees with largest_prime_below; the only other subtraction in the
descent is a saturating one, total by definition. -/
theorem largest_prime_below_panic_free (n : Nat) :
    largest_prime_belowChecked n = some (largest_prime_below n) := by
  by_cases h : n ≤ 2
  · simp [largest_prime_belowChecked, largest_prime_below, h]
  · have h1 : checkedSub n 1 = some (n - 1) := by
      rw [checkedSub, if_pos (by omega : 1 ≤ n)]
    by_cases hc : 2 < n - 1 ∧ (n - 1) % 2 = 0
    · have h2 : checkedSub (n - 1) 1 = some (n - 1 - 1) := by
        rw [checkedSub, if_pos (by omega : 1 ≤ n - 1)]
      simp [largest_prime_belowChecked, largest_prime_below, h, h1, hc, h2]
    · simp [largest_prime_belowChecked, largest_prime_below, h, h1, hc]

/-- The two mod_mul copies agree definitionally. -/
lemma mod_mul_eq_main (a b m : Nat) : MainSrc.mod_mul a b m = mod_mul a b m := rfl

/-- The two mod_pow loop copies agree. -/
lemma modPowLoop_eq_main (exp : Nat) : ∀ base modu result,
    MainSrc.modPowLoop base exp modu result = modPowLoop base exp modu result := by
  induction exp using Nat.strong_induction_on with
  | _ exp ih =>
    intro base modu result
    rw [MainSrc.modPowLoop.eq_def, modPowLoop.eq_def]
    by_cases h : exp = 0
    · simp [h]
    · simp only [h, dite_false]
      exact ih (exp / 2) (Nat.div_lt_self (Nat.pos_of_ne_zero h) one_lt_two) _ _ _

/-- The two mod_pow copies agree. -/
lemma mod_pow_eq_main (base exp modu : Nat) :
    MainSrc.mod_pow base exp modu = mod_pow base exp modu := by
  unfold MainSrc.mod_pow mod_pow
  exact modPowLoop_eq_main exp _ _ _

/-- The two small-prime filter loops agree on any prime list. -/
lemma smallPrimeCheck_eq_main (n : Nat) (l : List Nat) :
    MainSrc.smallPrimeCheck n l = smallPrimeCheck n l := by
  induction l with
  | nil => rfl
  | cons p ps ihl =>
    rw [MainSrc.smallPrimeCheck, smallPrimeCheck]
    by_cases h1 : n = p
    · simp [h1]
    · by_cases h2 : n % p = 0 <;> simp [h1, h2, ihl]

/-- The two d * 2 ^ s extraction loops agree. -/
lemma split2_eq_main (d : Nat) : MainSrc.split2 d = split2 d := by
  induction d using Nat.strong_induction_on with
  | _ d ih =>
    rw [MainSrc.split2.eq_def, split2.eq_def]
    by_cases h : d % 2 = 0 ∧ d ≠ 0
    · simp only [h, dite_true]
      rw [ih (d / 2) (Nat.div_lt_self (Nat.pos_of_ne_zero h.2) one_lt_two)]
    · simp [h]

/-- The two inner squaring loops agree. -/
lemma mrInner_eq_main (n k : Nat) : ∀ x, MainSrc.mrInner n k x = mrInner n k x := by
  induction k with
  | zero =>
    intro x
    rfl
  | succ k ihk =>
    intro x
    rw [MainSrc.mrInner, mrInner]
    simp only [mod_mul_eq_main]
    by_cases h : mod_mul x x n = n - 1 <;> simp [h, ihk]

/-- The two per-base Miller-Rabin rounds agree. -/
lemma mrWitness_eq_main (n d s a : Nat) :
    MainSrc.mrWitness n d s a = mrWitness n d s a := by
  unfold MainSrc.mrWitness mrWitness
  simp only [mod_pow_eq_main, mrInner_eq_main]

/-- The two is_prime copies agree. -/
lemma is_prime_eq_main (n : Nat) : MainSrc.is_prime n = is_prime n := by
  unfold MainSrc.is_prime is_prime
  by_cases h : n < 2
  · simp [h]
  · simp only [h, if_false]
    rw [show MainSrc.SMALL_PRIMES = SMALL_PRIMES from rfl,
      show MainSrc.BASES = BASES from rfl, smallPrimeCheck_eq_main]
    cases hsc : smallPrimeCheck n SMALL_PRIMES with
    | some b => rfl
    | none => simp only [split2_eq_main, mrWitness_eq_main]

/-- The two descent loops agree. -/
lemma lpbLoop_eq_main (c : Nat) : MainSrc.lpbLoop c = lpbLoop c := by
  induction c using Nat.strong_induction_on with
  | _ c ih =>
    by_cases h4 : 4 ≤ c
    · obtain ⟨k, rfl⟩ : ∃ k, c = k + 4 := ⟨c - 4, by omega⟩
      rw [MainSrc.lpbLoop, lpbLoop]
      simp only [is_prime_eq_main]
      by_cases hp : is_prime (k + 4)
      · simp [hp]
      · simp only [hp, Bool.false_eq_true, if_false]
        exact ih (k + 2) (by omega)
    · have h3 : c ≤ 3 := by omega
      interval_cases c <;> decide

/-- The two largest_prime_below copies agree. -/
lemma largest_prime_below_eq_main (n : Nat) :
    MainSrc.largest_prime_below n = largest_prime_below n := by
  unfold MainSrc.largest_prime_below largest_prime_below
  by_cases h : n ≤ 2
  · simp [h]
  · simp only [h, if_false]
    rw [lpbLoop_eq_main]

/-- C8: the duplicated primality and search logic of main.rs computes,
on every input, the same results as the shared library of lib.rs. -/
theorem main_matches_lib (n : Nat) :
    MainSrc.is_prime n = is_prime n ∧
    MainSrc.largest_prime_below n = largest_prime_below n :=
  ⟨is_prime_eq_main n, largest_prime_below_eq_main n⟩

/-- C9 counterexample: at input 2 the search finds no prime, yet the
entry point of main.rs reports on stdout with exit status 0, not on the
error stream with status 1 as the claim requires of every entry point. -/
theorem cli_error_stream_counterexample :
    MainSrc.largest_prime_below 2 = none ∧
    rootMainReport 2 ≠ (OutStream.stderr, 1) := by
  decide

/-- C9 amended: when the search finds no prime, the clap-based entry
point of src/bin/largest_prime_below.rs prints its diagnostic on stderr
and exits with status 1, while the entry point of src/main.rs always
prints on stdout and exits with status 0. -/
theorem cli_report_behavior (n : Nat) :
    (largest_prime_below n = none → binMainReport n = (OutStream.stderr, 1)) ∧
    rootMainReport n = (OutStream.stdout, 0) := by
  constructor
  · intro h
    simp [binMainReport, h]
  · unfold rootMainReport
    cases MainSrc.largest_prime_below n <;> rfl

/-- Witness for the amended C9 at n = 2, where no prime exists below. -/
theorem cli_report_behavior_witness :
    largest_prime_below 2 = none ∧ binMainReport 2 = (OutStream.stderr, 1) ∧
    rootMainReport 2 = (OutStream.stdout, 0) :=
  ⟨by decide, (cli_report_behavior 2).1 (by decide), (cli_report_behavior 2).2⟩

example : largest_prime_below 10 = some 7 := by decide
example : largest_prime_below 12 = some 11 := by decide
example : largest_prime_below 3 = some 2 := by decide
example : largest_prime_below 4 = some 3 := by decide
example : largest_prime_below 0 = none := by decide
example : largest_prime_below 2 = none := by decide
